import Mathlib

/-!
Shallow embedding of the `packed_dna` repository (`src/dna/src/lib.rs`),
the crate providing the `Nuc` nucleotide enum and the `PackedDna`
2-bit-packed DNA sequence container, together with theorems settling the
specification claims about it.

Modelling conventions:
* Rust `char` is Lean `Char`; Rust `&str`/`String` is `List Char`
  (one entry per character, matching `str::chars`).
* Rust `u8` values are `Nat`s kept below 256 by explicit `% 2 ^ 8`
  where the source's `u8` arithmetic could overflow; `u32` casts and
  increments carry an explicit `% 2 ^ 32` (release-mode wrapping).
* `Vec<u8>` is `List Nat`; `vec[i]` indexing that can go out of range is
  modelled through `List.get?`, with the `none` case mapped to a
  distinguished "panicked" outcome (a Rust index-out-of-range panic).
* Calls to `process::exit(1)` in the source are modelled as distinguished
  outcome constructors (`exitProcess`, …): the function's observable
  behaviour is "the process terminates", which is not the same outcome as
  returning an error value, and the two are kept apart in each result type.
-/

/-- The nucleotide enum `Nuc` from `src/dna/src/lib.rs` (variants A, C, G, T). -/
inductive Nuc
  | A
  | C
  | G
  | T
deriving DecidableEq, Repr

/-- Rust `char::to_ascii_uppercase`: maps `'a'..='z'` (code points 97–122) to
the corresponding uppercase letter (code point − 32) and leaves every other
character unchanged.  `String::to_ascii_uppercase` applies this to every
character. -/
def asciiUppercase (c : Char) : Char :=
  if 97 ≤ c.toNat ∧ c.toNat ≤ 122 then Char.ofNat (c.toNat - 32) else c

/-- The `TryFrom<char> for Nuc` impl: uppercase the character, map
`'A'/'C'/'G'/'T'` to the matching variant, and fail with `ParseNucError(value)`
carrying the original character otherwise.  `Except.error c` models
`Err(ParseNucError(c))`. -/
def Nuc.try_from (c : Char) : Except Char Nuc :=
  match asciiUppercase c with
  | 'A' => Except.ok Nuc.A
  | 'C' => Except.ok Nuc.C
  | 'G' => Except.ok Nuc.G
  | 'T' => Except.ok Nuc.T
  | _ => Except.error c

/-- The `FromStr for Nuc` impl: uppercase the whole string, match it against
the four one-character strings `"A"/"C"/"G"/"T"`, and fail with
`ParseNucError(upper)` carrying the uppercased string otherwise. -/
def Nuc.from_str (s : List Char) : Except (List Char) Nuc :=
  let upper := s.map asciiUppercase
  match upper with
  | ['A'] => Except.ok Nuc.A
  | ['C'] => Except.ok Nuc.C
  | ['G'] => Except.ok Nuc.G
  | ['T'] => Except.ok Nuc.T
  | _ => Except.error upper

/-- The `PackedDna` struct: `data` is the packed `Vec<u8>` buffer and
`data_len` the stored nucleotide count (`u32` in the source). -/
structure PackedDna where
  data : List Nat
  data_len : Nat
deriving DecidableEq, Repr

/-- `PackedDna::new`. -/
def PackedDna.new (data : List Nat) (data_len : Nat) : PackedDna :=
  { data := data, data_len := data_len }

/-- `PackedDna::char_bits_convert`: uppercase the character and map
A/C/G/T to 0/1/2/3; any other character yields the sentinel 8. -/
def PackedDna.char_bits_convert (c : Char) : Nat :=
  match asciiUppercase c with
  | 'A' => 0
  | 'C' => 1
  | 'G' => 2
  | 'T' => 3
  | _ => 8

/-- `PackedDna::enum_bits_convert`: A/C/G/T ↦ 0/1/2/3. -/
def PackedDna.enum_bits_convert : Nuc → Nat
  | Nuc.A => 0
  | Nuc.C => 1
  | Nuc.G => 2
  | Nuc.T => 3

/-- `PackedDna::bits_enum_convert`: 0/1/2/3 ↦ A/C/G/T, with a defaulting
fallback arm mapping any other value to `Nuc::T`. -/
def PackedDna.bits_enum_convert (v : Nat) : Nuc :=
  match v with
  | 0 => Nuc.A
  | 1 => Nuc.C
  | 2 => Nuc.G
  | 3 => Nuc.T
  | _ => Nuc.T

/-- The 2-bit extraction expression inside `PackedDna::get`:
`(data >> ((idx % 4) * 2)) & 3u8`. -/
def PackedDna.decode_item (data idx : Nat) : Nat :=
  (data >>> (idx % 4 * 2)) &&& 3

/-- Observable outcome of `PackedDna::get`.  The source either returns a
`Nuc`, calls `process::exit(1)` after printing a bounds diagnostic, or
panics inside `self.data[idx / 4]` when that buffer index is out of range. -/
inductive GetResult
  | ok (n : Nuc)
  | exitProcess
  | panicked
deriving DecidableEq, Repr

/-- `PackedDna::get`: bounds check `idx as u32 > self.data_len` (note the
strict `>`), then read byte `idx / 4` and decode the 2-bit item. -/
def PackedDna.get (pd : PackedDna) (idx : Nat) : GetResult :=
  if idx % 2 ^ 32 > pd.data_len then
    GetResult.exitProcess
  else
    match pd.data.get? (idx / 4) with
    | none => GetResult.panicked
    | some data => GetResult.ok (PackedDna.bits_enum_convert (PackedDna.decode_item data idx))

/-- Loop body of the `FromIterator<Nuc> for PackedDna` impl: for each
nucleotide, convert it to its 2-bit code, push the accumulator byte when a
new 4-group starts (`size % 4 == 0 && size != 0`), then shift the code into
the accumulator and bump `size`. -/
def PackedDna.from_iter_loop :
    List Nuc → List Nat → Nat → Nat → List Nat × Nat × Nat
  | [], arr, size, local_data => (arr, size, local_data)
  | nuc_data :: rest, arr, size, local_data =>
    let val := PackedDna.enum_bits_convert nuc_data
    let arr2 := if size % 4 = 0 ∧ size ≠ 0 then arr ++ [local_data] else arr
    let ld2 := if size % 4 = 0 ∧ size ≠ 0 then 0 else local_data
    PackedDna.from_iter_loop rest arr2 ((size + 1) % 2 ^ 32) ((ld2 <<< 2) % 2 ^ 8 ||| val)

/-- `FromIterator<Nuc> for PackedDna` (`from_iter`): run the packing loop,
push the final pending accumulator when `size % 4 != 0`, and build the
struct with `PackedDna::new`. -/
def PackedDna.from_iter (l : List Nuc) : PackedDna :=
  let res := PackedDna.from_iter_loop l [] 0 0
  let arr := res.1
  let size := res.2.1
  let local_data := res.2.2
  if size % 4 ≠ 0 then PackedDna.new (arr ++ [local_data]) size
  else PackedDna.new arr size

/-- Loop body of the `FromStr for PackedDna` impl over the uppercased
character list: record the character in `err_data` when `Nuc::try_from`
rejects it, then pack `char_bits_convert c` exactly as `from_iter` does. -/
def PackedDna.from_str_loop :
    List Char → List Nat → Nat → Nat → List Char → List Nat × Nat × Nat × List Char
  | [], arr, size, local_data, err_data => (arr, size, local_data, err_data)
  | c :: rest, arr, size, local_data, err_data =>
    let err2 := match Nuc.try_from c with
      | Except.error _ => err_data ++ [c]
      | Except.ok _ => err_data
    let val := PackedDna.char_bits_convert c
    let arr2 := if size % 4 = 0 ∧ size ≠ 0 then arr ++ [local_data] else arr
    let ld2 := if size % 4 = 0 ∧ size ≠ 0 then 0 else local_data
    PackedDna.from_str_loop rest arr2 ((size + 1) % 2 ^ 32) ((ld2 <<< 2) % 2 ^ 8 ||| val) err2

/-- Observable outcome of `PackedDna::from_str`.  The Rust signature is
`Result<PackedDna, ParseNucError<String>>`, so `ok` models `Ok(..)` and
`err` models returning `Err(..)`; `exitProcess errs` models the source's
actual failure path, which prints the collected offending characters and
calls `process::exit(1)` without ever constructing the `Err` value. -/
inductive StrResult
  | ok (pd : PackedDna)
  | err (e : List Char)
  | exitProcess (err_data : List Char)
deriving DecidableEq, Repr

/-- True exactly on the `err` (returned error value) outcome. -/
def StrResult.isErrValue : StrResult → Bool
  | StrResult.err _ => true
  | _ => false

/-- True exactly on the `exitProcess` (process terminated) outcome. -/
def StrResult.isProcessExit : StrResult → Bool
  | StrResult.exitProcess _ => true
  | _ => false

/-- `FromStr for PackedDna` (`from_str`): uppercase the input, run the
packing/validation loop, push the final pending accumulator when
`size % 4 != 0`, then — if any offending characters were collected — print
them and `process::exit(1)`; otherwise return `Ok(PackedDna::new(arr, size))`. -/
def PackedDna.from_str (s : List Char) : StrResult :=
  let dna_data := s.map asciiUppercase
  let res := PackedDna.from_str_loop dna_data [] 0 0 []
  let arr := res.1
  let size := res.2.1
  let local_data := res.2.2.1
  let err_data := res.2.2.2
  let arr2 := if size % 4 ≠ 0 then arr ++ [local_data] else arr
  if err_data ≠ [] then StrResult.exitProcess err_data
  else StrResult.ok (PackedDna.new arr2 size)

/-- Observable outcome of `PackedDna::print_data`: either the process exits
on the empty-sequence check, or an inner `get` exits/panics, or the four
counts A/C/G/T are printed. -/
inductive PrintResult
  | exitEmptyProcess
  | getExitProcess
  | getPanicked
  | counts (a c g t : Nat)
deriving DecidableEq, Repr

/-- True exactly on the `counts` outcome. -/
def PrintResult.isCounts : PrintResult → Bool
  | PrintResult.counts _ _ _ _ => true
  | _ => false

/-- The `for inx in 0..self.data_len` tally loop of `PackedDna::print_data`,
over the explicit index list, threading the four counters. -/
def PackedDna.print_go (pd : PackedDna) : List Nat → Nat → Nat → Nat → Nat → PrintResult
  | [], a, c, g, t => PrintResult.counts a c g t
  | inx :: rest, a, c, g, t =>
    match PackedDna.get pd inx with
    | GetResult.exitProcess => PrintResult.getExitProcess
    | GetResult.panicked => PrintResult.getPanicked
    | GetResult.ok val =>
      if val = Nuc.A then PackedDna.print_go pd rest (a + 1) c g t
      else if val = Nuc.C then PackedDna.print_go pd rest a (c + 1) g t
      else if val = Nuc.G then PackedDna.print_go pd rest a c (g + 1) t
      else if val = Nuc.T then PackedDna.print_go pd rest a c g (t + 1)
      else PackedDna.print_go pd rest a c g t

/-- `PackedDna::print_data`: exit the process when `data_len == 0`,
otherwise tally `get(inx)` for `inx in 0..data_len` and print the counts. -/
def PackedDna.print_data (pd : PackedDna) : PrintResult :=
  if pd.data_len = 0 then PrintResult.exitEmptyProcess
  else PackedDna.print_go pd (List.range pd.data_len) 0 0 0 0

/-- The match of `bits_enum_convert` with its defaulting fallback arm
removed: `none` marks exactly the inputs that the source function can only
handle by silently coercing to `Nuc::T`. -/
def bits_enum_convert_nofallback (v : Nat) : Option Nuc :=
  match v with
  | 0 => some Nuc.A
  | 1 => some Nuc.C
  | 2 => some Nuc.G
  | 3 => some Nuc.T
  | _ => none

/-! ### Character-level helper lemmas -/

lemma toNat_ofNat_of_lt (n : Nat) (h : n < 55296) : (Char.ofNat n).toNat = n := by
  have hv : n.isValidChar := Or.inl h
  simp [Char.ofNat, hv, Char.toNat, Char.ofNatAux, UInt32.toNat, BitVec.toNat_ofNatLt]

lemma char_eq_of_toNat_eq {a b : Char} (h : a.toNat = b.toNat) : a = b := by
  cases a; cases b
  simp only [Char.toNat] at h
  congr 1
  exact UInt32.toNat.inj h

lemma asciiUppercase_idem (c : Char) :
    asciiUppercase (asciiUppercase c) = asciiUppercase c := by
  unfold asciiUppercase
  by_cases h : 97 ≤ c.toNat ∧ c.toNat ≤ 122
  · rw [if_pos h]
    have ht : (Char.ofNat (c.toNat - 32)).toNat = c.toNat - 32 :=
      toNat_ofNat_of_lt _ (by omega)
    simp only [ht]
    rw [if_neg (by omega)]
  · rw [if_neg h, if_neg h]

lemma try_from_asciiUppercase_toOption (c : Char) :
    (Nuc.try_from (asciiUppercase c)).toOption = (Nuc.try_from c).toOption := by
  unfold Nuc.try_from
  rw [asciiUppercase_idem]
  split <;> rfl

lemma try_from_asciiUppercase_isOk (c : Char) :
    (Nuc.try_from (asciiUppercase c)).isOk = (Nuc.try_from c).isOk := by
  unfold Nuc.try_from
  rw [asciiUppercase_idem]
  split <;> rfl

lemma eq_or_succ32_of_asciiUppercase_eq {c X : Char}
    (h : asciiUppercase c = X) : c = X ∨ c.toNat = X.toNat + 32 := by
  unfold asciiUppercase at h
  split at h
  · right
    rename_i hr
    have ht : (Char.ofNat (c.toNat - 32)).toNat = c.toNat - 32 :=
      toNat_ofNat_of_lt _ (by omega)
    have := congrArg Char.toNat h
    rw [ht] at this
    omega
  · left; exact h

lemma try_from_error_of_not_mem (c : Char)
    (h : c ∉ (['A', 'a', 'C', 'c', 'G', 'g', 'T', 't'] : List Char)) :
    Nuc.try_from c = Except.error c := by
  unfold Nuc.try_from
  split
  · rename_i heq
    rcases eq_or_succ32_of_asciiUppercase_eq heq with h1 | h1
    · exact absurd (by simp [h1]) h
    · exact absurd (by simp [char_eq_of_toNat_eq (a := c) (b := 'a') (by simpa using h1)]) h
  · rename_i heq
    rcases eq_or_succ32_of_asciiUppercase_eq heq with h1 | h1
    · exact absurd (by simp [h1]) h
    · exact absurd (by simp [char_eq_of_toNat_eq (a := c) (b := 'c') (by simpa using h1)]) h
  · rename_i heq
    rcases eq_or_succ32_of_asciiUppercase_eq heq with h1 | h1
    · exact absurd (by simp [h1]) h
    · exact absurd (by simp [char_eq_of_toNat_eq (a := c) (b := 'g') (by simpa using h1)]) h
  · rename_i heq
    rcases eq_or_succ32_of_asciiUppercase_eq heq with h1 | h1
    · exact absurd (by simp [h1]) h
    · exact absurd (by simp [char_eq_of_toNat_eq (a := c) (b := 't') (by simpa using h1)]) h
  · rfl

lemma char_enum_agree (c : Char) (n : Nuc) (h : Nuc.try_from c = Except.ok n) :
    PackedDna.char_bits_convert c = PackedDna.enum_bits_convert n := by
  unfold Nuc.try_from at h
  unfold PackedDna.char_bits_convert
  split at h <;>
    first
    | (injection h with h2; subst h2; decide)
    | exact absurd h (by simp)

lemma from_str_single_eq (c : Char) :
    Nuc.from_str [c] = Except.mapError (fun x => [asciiUppercase x]) (Nuc.try_from c) := by
  unfold Nuc.from_str Nuc.try_from
  simp only [List.map_cons, List.map_nil]
  by_cases hA : asciiUppercase c = 'A'
  · rw [hA]; rfl
  · by_cases hC : asciiUppercase c = 'C'
    · rw [hC]; rfl
    · by_cases hG : asciiUppercase c = 'G'
      · rw [hG]; rfl
      · by_cases hT : asciiUppercase c = 'T'
        · rw [hT]; rfl
        · split
          · rename_i heq
            simp only [List.cons.injEq, and_true] at heq
            exact absurd heq hA
          · rename_i heq
            simp only [List.cons.injEq, and_true] at heq
            exact absurd heq hC
          · rename_i heq
            simp only [List.cons.injEq, and_true] at heq
            exact absurd heq hG
          · rename_i heq
            simp only [List.cons.injEq, and_true] at heq
            exact absurd heq hT
          · split
            · rename_i heq; exact absurd heq hA
            · rename_i heq; exact absurd heq hC
            · rename_i heq; exact absurd heq hG
            · rename_i heq; exact absurd heq hT
            · rfl

lemma from_str_len_ne_one (s : List Char) (h : s.length ≠ 1) :
    Nuc.from_str s = Except.error (s.map asciiUppercase) := by
  match s, h with
  | [], _ => rfl
  | a :: b :: rest, _ =>
    (unfold Nuc.from_str
     simp only [List.map_cons]
     split
     · rename_i heq; simp at heq
     · rename_i heq; simp at heq
     · rename_i heq; simp at heq
     · rename_i heq; simp at heq
     · rfl)
  | [a], h => exact absurd rfl h

/-! ### Loop-level helper lemmas -/

/-- Repackage a `from_iter_loop` state as a `from_str_loop` state with an
empty offending-character list. -/
def withNoErr (r : List Nat × Nat × Nat) : List Nat × Nat × Nat × List Char :=
  (r.1, r.2.1, r.2.2, [])

lemma from_str_loop_err (t : List Char) :
    ∀ (arr : List Nat) (size local_data : Nat) (err_data : List Char),
      (PackedDna.from_str_loop t arr size local_data err_data).2.2.2 =
        err_data ++ t.filter (fun c => !(Nuc.try_from c).isOk) := by
  induction t with
  | nil =>
    intro arr size local_data err_data
    simp [PackedDna.from_str_loop]
  | cons c rest ih =>
    intro arr size local_data err_data
    cases h : Nuc.try_from c with
    | ok n =>
      unfold PackedDna.from_str_loop
      simp only [h]
      rw [ih]
      have hok : (!(Nuc.try_from c).isOk) = false := by rw [h]; rfl
      simp [List.filter_cons, hok]
    | error e =>
      unfold PackedDna.from_str_loop
      simp only [h]
      rw [ih]
      have hok : (!(Nuc.try_from c).isOk) = true := by rw [h]; rfl
      simp [List.filter_cons, hok]

lemma from_loops_agree (t : List Char) :
    ∀ (arr : List Nat) (size local_data : Nat),
      (∀ c ∈ t, (Nuc.try_from c).isOk = true) →
      PackedDna.from_str_loop t arr size local_data [] =
        withNoErr (PackedDna.from_iter_loop
          (t.filterMap fun c => (Nuc.try_from c).toOption) arr size local_data) := by
  induction t with
  | nil =>
    intro arr size local_data _
    simp [PackedDna.from_str_loop, PackedDna.from_iter_loop, withNoErr]
  | cons c rest ih =>
    intro arr size local_data hv
    have hc : (Nuc.try_from c).isOk = true := hv c (List.mem_cons_self c rest)
    obtain ⟨n, hn⟩ : ∃ n, Nuc.try_from c = Except.ok n := by
      cases h : Nuc.try_from c with
      | ok n => exact ⟨n, rfl⟩
      | error e => rw [h] at hc; simp [Except.isOk, Except.toBool] at hc
    have hparse : ((c :: rest).filterMap fun c => (Nuc.try_from c).toOption) =
        n :: (rest.filterMap fun c => (Nuc.try_from c).toOption) := by
      simp [List.filterMap_cons, hn, Except.toOption]
    rw [hparse]
    unfold PackedDna.from_str_loop PackedDna.from_iter_loop
    simp only [hn]
    rw [char_enum_agree c n hn]
    exact ih _ _ _ (fun d hd => hv d (List.mem_cons_of_mem c hd))

lemma from_str_eq_ok_of_valid (s : List Char)
    (h : ∀ c ∈ s, (Nuc.try_from c).isOk = true) :
    PackedDna.from_str s =
      StrResult.ok (PackedDna.from_iter (s.filterMap fun c => (Nuc.try_from c).toOption)) := by
  have hvalid : ∀ c ∈ s.map asciiUppercase, (Nuc.try_from c).isOk = true := by
    intro c hc
    obtain ⟨d, hd, rfl⟩ := List.mem_map.mp hc
    rw [try_from_asciiUppercase_isOk]
    exact h d hd
  have hparse : ((s.map asciiUppercase).filterMap fun c => (Nuc.try_from c).toOption) =
      s.filterMap fun c => (Nuc.try_from c).toOption := by
    rw [List.filterMap_map]
    refine List.filterMap_congr ?_
    intro c _
    exact try_from_asciiUppercase_toOption c
  simp only [PackedDna.from_str, PackedDna.from_iter]
  rw [from_loops_agree _ _ _ _ hvalid, hparse]
  simp only [withNoErr, ne_eq, not_true_eq_false, if_false]
  by_cases hm :
      (PackedDna.from_iter_loop (s.filterMap fun c => (Nuc.try_from c).toOption) [] 0 0).2.1 % 4 = 0 <;>
    simp [hm]

lemma from_str_eq_exit_of_invalid (s : List Char)
    (h : ∃ c ∈ s, (Nuc.try_from c).isOk = false) :
    PackedDna.from_str s =
      StrResult.exitProcess
        ((s.map asciiUppercase).filter fun c => !(Nuc.try_from c).isOk) := by
  obtain ⟨c, hc, hinv⟩ := h
  have hmem : asciiUppercase c ∈ s.map asciiUppercase := List.mem_map_of_mem _ hc
  have hinv2 : (!(Nuc.try_from (asciiUppercase c)).isOk) = true := by
    rw [try_from_asciiUppercase_isOk, hinv]; rfl
  have hne : ((s.map asciiUppercase).filter fun c => !(Nuc.try_from c).isOk) ≠ [] :=
    List.ne_nil_of_mem (List.mem_filter.mpr ⟨hmem, hinv2⟩)
  simp only [PackedDna.from_str]
  rw [from_str_loop_err]
  simp only [List.nil_append]
  rw [if_pos hne]

lemma print_go_ne_exitEmpty (pd : PackedDna) (l : List Nat) :
    ∀ a c g t, PackedDna.print_go pd l a c g t ≠ PrintResult.exitEmptyProcess := by
  induction l with
  | nil =>
    intro a c g t
    simp [PackedDna.print_go]
  | cons i rest ih =>
    intro a c g t
    unfold PackedDna.print_go
    cases h : PackedDna.get pd i with
    | ok n =>
      simp only [h]
      split_ifs <;> exact ih _ _ _ _
    | exitProcess => simp [h]
    | panicked => simp [h]

lemma nofallback_of_lt (v : Nat) (h : v < 4) :
    bits_enum_convert_nofallback v = some (PackedDna.bits_enum_convert v) := by
  interval_cases v <;> rfl

/-! ### Claim theorems -/

/-- Claim C1 (code bug, evaluated at a failing input): the round-trip
property fails.  `from_str "AC"` packs A then C left-shifted into the byte
`0b0001`, but `get` reads the bit pair `(idx % 4) * 2` from the least
significant end, so `get 0` returns C and `get 1` returns A — each 4-symbol
group is read back reversed, so re-rendering does not reproduce "AC". -/
theorem c1_get_reverses_groups :
    PackedDna.from_str ['A', 'C'] = StrResult.ok (PackedDna.new [1] 2) ∧
    PackedDna.get (PackedDna.new [1] 2) 0 = GetResult.ok Nuc.C ∧
    PackedDna.get (PackedDna.new [1] 2) 1 = GetResult.ok Nuc.A := by
  decide

/-- Claim C2 (code bug, evaluated at a failing input): for an input whose
length is a nonzero multiple of four, the final full accumulator byte is
never pushed (the loop only pushes at the start of the next group and the
final push is guarded by `size % 4 != 0`), so the buffer has
`length / 4 - 1` bytes instead of `ceil(length / 4)`.  Here length 4 yields
an empty buffer rather than the 1 byte `ceil(4 / 4)` requires. -/
theorem c2_full_block_byte_dropped :
    PackedDna.from_iter [Nuc.A, Nuc.C, Nuc.G, Nuc.T] = PackedDna.new [] 4 ∧
    (PackedDna.from_iter [Nuc.A, Nuc.C, Nuc.G, Nuc.T]).data.length ≠
      ((PackedDna.from_iter [Nuc.A, Nuc.C, Nuc.G, Nuc.T]).data_len + 3) / 4 ∧
    PackedDna.from_str ['A', 'C', 'G', 'T'] = StrResult.ok (PackedDna.new [] 4) := by
  decide

/-- Claim C3 (code bug, evaluated at failing inputs): the bounds check is
`idx as u32 > data_len`, not `>=`.  On the length-6 sequence "ACGTTT",
`get(6)` passes the check and silently returns a garbage `A` read from
unused bits instead of failing; `get(7)` terminates the process rather than
returning an `IndexOutOfBounds` error value; and on the length-4 sequence
"ACGT" (whose buffer is empty, see C2) even the in-bounds `get(3)` panics
with a buffer index out of range. -/
theorem c3_bounds_check_off_by_one :
    PackedDna.from_str ['A', 'C', 'G', 'T', 'T', 'T'] = StrResult.ok (PackedDna.new [27, 15] 6) ∧
    PackedDna.get (PackedDna.new [27, 15] 6) 6 = GetResult.ok Nuc.A ∧
    PackedDna.get (PackedDna.new [27, 15] 6) 7 = GetResult.exitProcess ∧
    PackedDna.from_str ['A', 'C', 'G', 'T'] = StrResult.ok (PackedDna.new [] 4) ∧
    PackedDna.get (PackedDna.new [] 4) 3 = GetResult.panicked := by
  decide

/-- Claim C8 (confirmed): `from_str "ACGTTT"` succeeds with a sequence of
length 6 whose tally is A:1, C:1, G:1, T:3, with all four counters present
(the `counts` outcome always carries all four). -/
theorem c8_concrete_frequency :
    PackedDna.from_str ['A', 'C', 'G', 'T', 'T', 'T'] = StrResult.ok (PackedDna.new [27, 15] 6) ∧
    (PackedDna.new [27, 15] 6).data_len = 6 ∧
    PackedDna.print_data (PackedDna.new [27, 15] 6) = PrintResult.counts 1 1 1 3 := by
  decide

/-- Claim C4 (counterexample): on "ACGX" `from_str` does not fail with an
error value — it terminates the process (after printing the collected
offending characters) and the `Err` branch of its `Result` type is never
taken. -/
theorem c4_counterexample :
    PackedDna.from_str ['A', 'C', 'G', 'X'] = StrResult.exitProcess ['X'] ∧
    StrResult.isErrValue (PackedDna.from_str ['A', 'C', 'G', 'X']) = false := by
  decide

/-- Claim C4 (amended): for every input containing at least one character
outside {A,C,G,T} (case-insensitive), `from_str` terminates the process
carrying the list of every offending character found (in input order,
uppercased), and no `PackedDna` — and no `Err` value — is produced. -/
theorem c4_amended (s : List Char)
    (h : ∃ c ∈ s, (Nuc.try_from c).isOk = false) :
    PackedDna.from_str s =
      StrResult.exitProcess
        ((s.map asciiUppercase).filter fun c => !(Nuc.try_from c).isOk) :=
  from_str_eq_exit_of_invalid s h

/-- Witness for `c4_amended` at the concrete input "ACgXy": the offending
characters are X and y (reported uppercased as X, Y), both listed. -/
theorem c4_amended_witness :
    (∃ c ∈ (['A', 'C', 'g', 'X', 'y'] : List Char), (Nuc.try_from c).isOk = false) ∧
    PackedDna.from_str ['A', 'C', 'g', 'X', 'y'] = StrResult.exitProcess ['X', 'Y'] :=
  ⟨by decide, by
    have h := c4_amended ['A', 'C', 'g', 'X', 'y'] (by decide)
    rw [h]
    decide⟩

/-- Claim C5 (counterexample): `from_str` is a core operation that does
terminate the process directly — on input "X" its outcome is a process
exit, not a returned error result. -/
theorem c5_counterexample :
    PackedDna.from_str ['X'] = StrResult.exitProcess ['X'] ∧
    StrResult.isProcessExit (PackedDna.from_str ['X']) = true := by
  decide

/-- Claim C5 (amended): the error conditions of the core operations are
handled by terminating the process, not by returning error kinds:
`get` exits the process exactly when the (u32-cast) index strictly exceeds
`data_len`; `print_data` exits the process exactly when the sequence is
empty; `from_str` never returns an `Err` value, and on any input with an
invalid character its outcome is a process exit. -/
theorem c5_amended :
    (∀ (pd : PackedDna) (idx : Nat),
        PackedDna.get pd idx = GetResult.exitProcess ↔ pd.data_len < idx % 2 ^ 32) ∧
    (∀ pd : PackedDna,
        PackedDna.print_data pd = PrintResult.exitEmptyProcess ↔ pd.data_len = 0) ∧
    (∀ s e : List Char, PackedDna.from_str s ≠ StrResult.err e) ∧
    (∀ s : List Char, (∃ c ∈ s, (Nuc.try_from c).isOk = false) →
        StrResult.isProcessExit (PackedDna.from_str s) = true) := by
  refine ⟨?_, ?_, ?_, ?_⟩
  · intro pd idx
    constructor
    · intro h
      unfold PackedDna.get at h
      split at h
      · rename_i hgt; exact hgt
      · split at h <;> simp at h
    · intro h
      unfold PackedDna.get
      rw [if_pos h]
  · intro pd
    unfold PackedDna.print_data
    split
    · rename_i h; simp [h]
    · rename_i h
      simp only [h, iff_false]
      exact print_go_ne_exitEmpty pd _ 0 0 0 0
  · intro s e
    simp only [PackedDna.from_str]
    split <;> simp
  · intro s h
    rw [from_str_eq_exit_of_invalid s h]
    rfl

/-- Witness for `c5_amended` at concrete inputs: an out-of-bounds `get`
exits the process, `print_data` on an empty sequence exits the process, and
`from_str "Z"` exits the process. -/
theorem c5_amended_witness :
    PackedDna.get (PackedDna.new [] 0) 1 = GetResult.exitProcess ∧
    PackedDna.print_data (PackedDna.new [] 0) = PrintResult.exitEmptyProcess ∧
    StrResult.isProcessExit (PackedDna.from_str ['Z']) = true :=
  ⟨(c5_amended.1 (PackedDna.new [] 0) 1).mpr (by decide),
   (c5_amended.2.1 (PackedDna.new [] 0)).mpr rfl,
   c5_amended.2.2.2 ['Z'] (by decide)⟩

/-- Claim C6 (counterexample): `from_str ""` does succeed with the empty
zero-length sequence, but `print_data` on it does not fail with a returned
`EmptySequence` error kind — it terminates the process (the source prints a
diagnostic and calls `process::exit(1)`; its return type has no error
variant at all). -/
theorem c6_counterexample :
    PackedDna.from_str [] = StrResult.ok (PackedDna.new [] 0) ∧
    PackedDna.print_data (PackedDna.new [] 0) = PrintResult.exitEmptyProcess := by
  decide

/-- Claim C6 (amended): `from_str ""` succeeds with `data_len = 0` and an
empty buffer, and `print_data` on that sequence terminates the process on
its empty-sequence check rather than reporting (all-zero) counts. -/
theorem c6_amended :
    PackedDna.from_str [] = StrResult.ok (PackedDna.new [] 0) ∧
    (PackedDna.new [] 0).data_len = 0 ∧
    (PackedDna.new [] 0).data = [] ∧
    PackedDna.print_data (PackedDna.new [] 0) = PrintResult.exitEmptyProcess ∧
    PrintResult.isCounts (PackedDna.print_data (PackedDna.new [] 0)) = false := by
  decide

/-- Claim C7 (confirmed): `from_iter` is a total function on finite symbol
lists (its Rust signature returns `Self`, with no failure path and no
process exit), and for every text whose characters all parse as
nucleotides, `from_str` succeeds and returns exactly the `PackedDna` that
`from_iter` builds from the parsed symbol sequence — the same packed bytes
and the same length. -/
theorem c7_from_iter_refines_from_str (s : List Char)
    (h : ∀ c ∈ s, (Nuc.try_from c).isOk = true) :
    PackedDna.from_str s =
      StrResult.ok (PackedDna.from_iter (s.filterMap fun c => (Nuc.try_from c).toOption)) :=
  from_str_eq_ok_of_valid s h

/-- Witness for `c7_from_iter_refines_from_str` at the mixed-case concrete
input "aCgT". -/
theorem c7_witness :
    (∀ c ∈ (['a', 'C', 'g', 'T'] : List Char), (Nuc.try_from c).isOk = true) ∧
    PackedDna.from_str ['a', 'C', 'g', 'T'] =
      StrResult.ok (PackedDna.from_iter
        (['a', 'C', 'g', 'T'].filterMap fun c => (Nuc.try_from c).toOption)) :=
  ⟨by decide, c7_from_iter_refines_from_str ['a', 'C', 'g', 'T'] (by decide)⟩

/-- Claim C9 (confirmed): `Nuc::try_from` maps each of A/C/G/T in either
case to the corresponding nucleotide and fails, carrying the offending
character, on every other character; `Nuc::from_str` succeeds on a
one-character string exactly when `try_from` succeeds on that character
(with the same nucleotide), and fails on every string whose length is not
one.  Both are pure functions of their argument. -/
theorem c9_nuc_parsing :
    (Nuc.try_from 'A' = Except.ok Nuc.A ∧ Nuc.try_from 'a' = Except.ok Nuc.A ∧
     Nuc.try_from 'C' = Except.ok Nuc.C ∧ Nuc.try_from 'c' = Except.ok Nuc.C ∧
     Nuc.try_from 'G' = Except.ok Nuc.G ∧ Nuc.try_from 'g' = Except.ok Nuc.G ∧
     Nuc.try_from 'T' = Except.ok Nuc.T ∧ Nuc.try_from 't' = Except.ok Nuc.T) ∧
    (∀ c : Char, c ∉ (['A', 'a', 'C', 'c', 'G', 'g', 'T', 't'] : List Char) →
        Nuc.try_from c = Except.error c) ∧
    (∀ (c : Char) (n : Nuc), Nuc.from_str [c] = Except.ok n ↔ Nuc.try_from c = Except.ok n) ∧
    (∀ s : List Char, s.length ≠ 1 → ∃ e, Nuc.from_str s = Except.error e) := by
  refine ⟨⟨rfl, rfl, rfl, rfl, rfl, rfl, rfl, rfl⟩, try_from_error_of_not_mem, ?_, ?_⟩
  · intro c n
    rw [from_str_single_eq]
    cases h : Nuc.try_from c with
    | ok m => simp [Except.mapError]
    | error e => simp [Except.mapError]
  · intro s h
    exact ⟨s.map asciiUppercase, from_str_len_ne_one s h⟩

/-- Witness for `c9_nuc_parsing` at concrete inputs: 'B' is rejected with
the offending character; the singleton "g" parses like the character 'g';
the empty string fails. -/
theorem c9_witness :
    ('B' ∉ (['A', 'a', 'C', 'c', 'G', 'g', 'T', 't'] : List Char) ∧
      Nuc.try_from 'B' = Except.error 'B') ∧
    Nuc.from_str ['g'] = Except.ok Nuc.G ∧
    (([] : List Char).length ≠ 1 ∧ ∃ e, Nuc.from_str ([] : List Char) = Except.error e) :=
  ⟨⟨by decide, c9_nuc_parsing.2.1 'B' (by decide)⟩,
   (c9_nuc_parsing.2.2.1 'g' Nuc.G).mpr rfl,
   ⟨by decide, c9_nuc_parsing.2.2.2 [] (by decide)⟩⟩

/-- Claim C10 (confirmed): the value `get` extracts is masked with 3 and is
therefore always strictly below 4, and whenever `get` returns a nucleotide
the value it passed to `bits_enum_convert` is resolved by one of the four
explicit arms — the defaulting fallback arm (which would coerce an
out-of-range code to T) is unreachable from `get`. -/
theorem c10_no_fallback :
    (∀ data idx : Nat, PackedDna.decode_item data idx < 4) ∧
    (∀ (pd : PackedDna) (idx : Nat) (n : Nuc),
        PackedDna.get pd idx = GetResult.ok n →
        ∃ b, pd.data.get? (idx / 4) = some b ∧
          bits_enum_convert_nofallback (PackedDna.decode_item b idx) = some n) := by
  constructor
  · intro data idx
    have : PackedDna.decode_item data idx ≤ 3 := Nat.and_le_right
    omega
  · intro pd idx n h
    unfold PackedDna.get at h
    split at h
    · exact absurd h (by simp)
    · split at h
      · exact absurd h (by simp)
      · rename_i b heq
        injection h with h2
        refine ⟨b, heq, ?_⟩
        rw [← h2]
        refine nofallback_of_lt _ ?_
        have : PackedDna.decode_item b idx ≤ 3 := Nat.and_le_right
        omega

/-- Witness for `c10_no_fallback` at a concrete lookup: `get 0` on the
packed "ACGTTT" sequence returns T through the explicit arm for code 3. -/
theorem c10_witness :
    PackedDna.get (PackedDna.new [27, 15] 6) 0 = GetResult.ok Nuc.T ∧
    ∃ b, (PackedDna.new [27, 15] 6).data.get? (0 / 4) = some b ∧
      bits_enum_convert_nofallback (PackedDna.decode_item b 0) = some Nuc.T :=
  ⟨by decide, c10_no_fallback.2 (PackedDna.new [27, 15] 6) 0 Nuc.T (by decide)⟩
